import Mathlib

/-!
Verification of the AutoGLM-TERMUX web core against its specification.

This file shallowly embeds the parts of the repository that the claims
C1-C10 are about:

* the seconds-resolution cron scheduler of autoglm_web/schedule.py
  (field parsing, matching, validity, forward search, run history),
* the step interpreter of autoglm_web/tasks_runner.py
  (fail-fast step loop, parameter templating, the sleep step,
  interactive session registry),
* the process supervisor of autoglm_web/autoglm_process.py
  (stop, tail_log),
* the keyevent validation guard of autoglm_web/adb.py.

Machine integers are modelled as Nat/Int (Python integers are unbounded,
so no wrap-around modelling is needed); Python exceptions are modelled as
Option/Except; Python sets of cron values are modelled as lists, of which
only membership and emptiness are used, exactly as in the source.
-/

namespace AutoGLM

/-! ## Python string primitives

Python string helpers used by the embedded functions, re-implemented
structurally on lists of characters so that all definitions reduce in the
kernel.  Python whitespace handling is modelled with ASCII whitespace
(space, tab, carriage return, newline); the source never feeds other
whitespace characters to these helpers.
-/

/-- The characters of a string with surrounding whitespace removed,
modelling the Python str.strip method. -/
def trimChars (cs : List Char) : List Char :=
  ((cs.dropWhile Char.isWhitespace).reverse.dropWhile Char.isWhitespace).reverse

/-- Python str.strip. -/
def pyStrip (s : String) : String :=
  String.mk (trimChars s.toList)

/-- Helper for pySplitWs: split a character list into maximal
whitespace-free words. -/
def wordsAux : List Char → List Char → List String
  | [], [] => []
  | [], acc => [String.mk acc.reverse]
  | c :: cs, acc =>
    if c.isWhitespace then
      if acc.isEmpty then wordsAux cs [] else String.mk acc.reverse :: wordsAux cs []
    else
      wordsAux cs (c :: acc)

/-- Python str.split with no separator argument: split on whitespace runs,
discarding empty pieces. -/
def pySplitWs (s : String) : List String :=
  wordsAux s.toList []

/-- Helper for pySplitComma: Python str.split with an explicit separator
keeps empty pieces. -/
def splitCommaAux : List Char → List Char → List String
  | [], acc => [String.mk acc.reverse]
  | c :: cs, acc =>
    if c = ',' then String.mk acc.reverse :: splitCommaAux cs []
    else splitCommaAux cs (c :: acc)

/-- Python str.split on a comma separator (all occurrences, empties kept). -/
def pySplitComma (s : String) : List String :=
  splitCommaAux s.toList []

/-- Split a character list at the first occurrence of a separator
character, modelling the Python str.split(sep, 1) call; none when the
separator does not occur (Python "sep in s" is false). -/
def breakAtChar : List Char → Char → Option (List Char × List Char)
  | [], _ => none
  | x :: xs, c =>
    if x = c then some ([], xs)
    else
      match breakAtChar xs c with
      | none => none
      | some (a, b) => some (x :: a, b)

/-- Digit run validity for the Python int() literal grammar: a non-empty
run of decimal digits in which single underscores may appear between two
digits. -/
def digitsUnd : List Char → Bool
  | [] => false
  | [c] => c.isDigit
  | c :: '_' :: rest => c.isDigit && digitsUnd rest
  | c :: rest => c.isDigit && digitsUnd rest

/-- Numeric value of a digit run (underscores skipped). -/
def natOfDigits : List Char → Nat :=
  List.foldl (fun acc c => if c = '_' then acc else acc * 10 + (c.toNat - 48)) 0

/-- Python int(s) on a string: strips whitespace, accepts an optional
sign and a decimal digit run with single internal underscores; none models
a ValueError.  (The full Python grammar additionally accepts non-ASCII
decimal digits, which the source never produces.) -/
def pyToInt (s : String) : Option Int :=
  let cs := trimChars s.toList
  match cs with
  | '+' :: mag => if digitsUnd mag then some (natOfDigits mag : Int) else none
  | '-' :: mag => if digitsUnd mag then some (-(natOfDigits mag : Int)) else none
  | mag => if digitsUnd mag then some (natOfDigits mag : Int) else none

/-- The list of naturals lo, lo+1, ..., hi (empty when hi < lo),
modelling Python range(lo, hi+1). -/
def natRange (lo hi : Nat) : List Nat :=
  (List.range (hi + 1 - lo)).map (fun i => i + lo)

/-- Python range(start, stop+1, step) for integer bounds and a positive
step, collecting the values as naturals (the callers clamp start to a
non-negative lower bound first). -/
def rangeStep (start stop step : Int) : List Nat :=
  if step ≤ 0 ∨ stop < start then []
  else
    (List.range ((stop - start).toNat / step.toNat + 1)).map
      (fun i => (start + step * (i : Int)).toNat)

/-! ## Cron field parsing (schedule.py, _parse_field) -/

/-- One comma-separated piece of a cron field, as in the body of the loop
of _parse_field in schedule.py: an optional /step suffix split at the
first slash (an empty base becomes "*"), then either "*", a start-end
range split at the first dash, or a single value; the bounds are clamped
to [min_v, max_v] and a non-positive step is an error.  none models the
error paths of _parse_field that return the empty set, discarding all
values accumulated so far; some vs is the list of values this piece
contributes. -/
def parsePart (part0 : String) (min_v max_v : Nat) : Option (List Nat) :=
  let part := pyStrip part0
  if part = "" then some []
  else
    let cs := part.toList
    let stepBase : Option Int × List Char :=
      match breakAtChar cs '/' with
      | some (base, stepS) =>
        (pyToInt (String.mk stepS), if base.isEmpty then ['*'] else base)
      | none => (some 1, cs)
    match stepBase.1 with
    | none => none
    | some step =>
      let se : Option (Int × Int) :=
        if stepBase.2 = ['*'] then some ((min_v : Int), (max_v : Int))
        else
          match breakAtChar stepBase.2 '-' with
          | some (a, b) =>
            match pyToInt (String.mk a), pyToInt (String.mk b) with
            | some x, some y => some (x, y)
            | _, _ => none
          | none =>
            match pyToInt (String.mk stepBase.2) with
            | some v => some (v, v)
            | none => none
      match se with
      | none => none
      | some (start0, stop0) =>
        let start := max (min_v : Int) start0
        let stop := min (max_v : Int) stop0
        if step ≤ 0 then none
        else some (rangeStep start stop step)

/-- Accumulating loop over the comma-separated pieces of a cron field; an
error in any piece yields the empty set for the whole field, as in
_parse_field. -/
def parseFieldGo (min_v max_v : Nat) : List String → List Nat → List Nat
  | [], acc => acc
  | p :: rest, acc =>
    match parsePart p min_v max_v with
    | none => []
    | some vs => parseFieldGo min_v max_v rest (acc ++ vs)

/-- _parse_field of schedule.py: the set of values of one cron field,
modelled as a list of which only membership and emptiness are used. -/
def parse_field (field : String) (min_v max_v : Nat) : List Nat :=
  if field = "*" then natRange min_v max_v
  else parseFieldGo min_v max_v (pySplitComma field) []

/-! ## Civil time in the fixed +08:00 zone

The scheduler evaluates all instants with _now_beijing, a fixed +08:00
zone with no daylight saving, so an instant is modelled as a
non-negative count of epoch seconds and its civil components are obtained
by the standard proleptic Gregorian conversion (the same calendar that
the Python datetime module implements).
-/

/-- Month and day of month from a count of days since 1970-01-01
(proleptic Gregorian, days-from-civil inverse due to Howard Hinnant). -/
def civilFromDays (z0 : Nat) : Nat × Nat :=
  let z := z0 + 719468
  let era := z / 146097
  let doe := z - era * 146097
  let yoe := (doe - doe / 1460 + doe / 36524 - doe / 146096) / 365
  let doy := doe - (365 * yoe + yoe / 4 - yoe / 100)
  let mp := (5 * doy + 2) / 153
  let d := doy - (153 * mp + 2) / 5 + 1
  let m := if mp < 10 then mp + 3 else mp - 9
  (m, d)

/-- The civil components of an instant that the cron matcher reads:
second, minute, hour, day of month, month, and the Python
datetime.weekday() index (Monday = 0 ... Sunday = 6). -/
structure CivilDateTime where
  second : Nat
  minute : Nat
  hour : Nat
  day : Nat
  month : Nat
  weekdayMon : Nat
  deriving Repr, DecidableEq

/-- Civil components of an epoch-second instant in the fixed +08:00 zone
used by _now_beijing (1970-01-01 was a Thursday, weekday index 3). -/
def beijingCivil (ts : Nat) : CivilDateTime :=
  let loc := ts + 8 * 3600
  let days := loc / 86400
  let sod := loc % 86400
  let md := civilFromDays days
  { second := sod % 60
    minute := sod / 60 % 60
    hour := sod / 3600
    day := md.2
    month := md.1
    weekdayMon := (days + 3) % 7 }

/-! ## Cron matching, validity and the forward search (schedule.py) -/

/-- The six whitespace-separated fields of a cron expression, none when
their number differs from six.  Both _matches and is_valid_cron and
_cron_sets in schedule.py start by splitting the stripped expression this
way. -/
def sixParts (expr : String) :
    Option (String × String × String × String × String × String) :=
  match pySplitWs (pyStrip expr) with
  | [a, b, c, d, e, f] => some (a, b, c, d, e, f)
  | _ => none

/-- _matches of schedule.py: a six-field seconds-resolution cron match of
one instant, with the day-of-week index normalized so Sunday maps to 0 and
a stored 7 also accepting Sunday.  The try/except wrapper of the source
can never fire because field parsing and membership are total. -/
def cronMatches (cron : String) (ts : Nat) : Bool :=
  match sixParts cron with
  | none => false
  | some (secS, minS, hourS, domS, monthS, dowS) =>
    let c := beijingCivil ts
    let secOk := (parse_field (pyStrip secS) 0 59).contains c.second
    let minOk := (parse_field (pyStrip minS) 0 59).contains c.minute
    let hourOk := (parse_field (pyStrip hourS) 0 23).contains c.hour
    let domOk := (parse_field (pyStrip domS) 1 31).contains c.day
    let monthOk := (parse_field (pyStrip monthS) 1 12).contains c.month
    let dowVals0 := parse_field (pyStrip dowS) 0 7
    let dowVals := if dowVals0.contains 7 then 0 :: dowVals0 else dowVals0
    let cronDow := (c.weekdayMon + 1) % 7
    secOk && minOk && hourOk && domOk && monthOk && dowVals.contains cronDow

/-- is_valid_cron of schedule.py: exactly six fields, each expanding to a
non-empty value set within its bounds. -/
def is_valid_cron (expr : String) : Bool :=
  match sixParts expr with
  | none => false
  | some (secS, minS, hourS, domS, monthS, dowS) =>
    !(parse_field (pyStrip secS) 0 59).isEmpty &&
    !(parse_field (pyStrip minS) 0 59).isEmpty &&
    !(parse_field (pyStrip hourS) 0 23).isEmpty &&
    !(parse_field (pyStrip domS) 1 31).isEmpty &&
    !(parse_field (pyStrip monthS) 1 12).isEmpty &&
    !(parse_field (pyStrip dowS) 0 7).isEmpty

/-- The six expanded value sets of a cron expression, in field order;
none when the expression does not have six fields or some field expands
to an empty set (_cron_sets of schedule.py). -/
def cron_sets (expr : String) :
    Option (List Nat × List Nat × List Nat × List Nat × List Nat × List Nat) :=
  match sixParts expr with
  | none => none
  | some (secS, minS, hourS, domS, monthS, dowS) =>
    let f1 := parse_field (pyStrip secS) 0 59
    let f2 := parse_field (pyStrip minS) 0 59
    let f3 := parse_field (pyStrip hourS) 0 23
    let f4 := parse_field (pyStrip domS) 1 31
    let f5 := parse_field (pyStrip monthS) 1 12
    let f6 := parse_field (pyStrip dowS) 0 7
    if f1.isEmpty ∨ f2.isEmpty ∨ f3.isEmpty ∨ f4.isEmpty ∨ f5.isEmpty ∨ f6.isEmpty then
      none
    else
      some (f1, f2, f3, f4, f5, f6)

/-- The per-second test of the scan loop of next_run_ts: membership of
every civil component of the candidate instant in the corresponding
expanded set (the day-of-week set is adjusted before the loop starts). -/
def matchesSets
    (f : List Nat × List Nat × List Nat × List Nat × List Nat × List Nat)
    (ts : Nat) : Bool :=
  let c := beijingCivil ts
  f.1.contains c.second &&
  f.2.1.contains c.minute &&
  f.2.2.1.contains c.hour &&
  f.2.2.2.1.contains c.day &&
  f.2.2.2.2.1.contains c.month &&
  f.2.2.2.2.2.contains ((c.weekdayMon + 1) % 7)

/-- The second-by-second scan of next_run_ts: the first instant at or
after ts within the given fuel that matches the sets, none when the fuel
is exhausted. -/
def scanFirst
    (f : List Nat × List Nat × List Nat × List Nat × List Nat × List Nat)
    (ts : Nat) : Nat → Option Nat
  | 0 => none
  | fuel + 1 => if matchesSets f ts then some ts else scanFirst f (ts + 1) fuel

/-- next_run_ts of schedule.py with an explicit scan horizon: expands the
expression, adds Sunday as 0 when the day-of-week set contains 7, then
scans second-by-second strictly after the reference instant; 0 signals an
invalid expression or an exhausted horizon (no match found). -/
def next_run_ts_scan (expr : String) (now : Nat) (max_scan_seconds : Nat) : Nat :=
  match cron_sets expr with
  | none => 0
  | some (se, mi, ho, dm, mo, dw) =>
    let dw2 := if dw.contains 7 then 0 :: dw else dw
    match scanFirst (se, mi, ho, dm, mo, dw2) (now + 1) max_scan_seconds with
    | some ts => ts
    | none => 0

/-- next_run_ts with its default 31-day horizon. -/
def next_run_ts (expr : String) (now : Nat) : Nat :=
  next_run_ts_scan expr now (31 * 24 * 3600)

/-! ## Python values and parameter templating (tasks_runner.py, _format)

Step fields hold either strings or integers; _format renders only string
values through str.format and passes every other value through
unchanged, falling back to the original string on any exception.

The replacement-field scanner below embeds the subset of str.format that
step fields use: literal text, doubled-brace escapes, and simple named
fields looked up in the keyword parameter mapping.  A field whose name
part carries a conversion, a format spec, an attribute or an index
(characters ! : . [ after the name), and a positional field (empty or
all-digit name, for which the source supplies no positional arguments),
are not substituted: the former are outside the modelled subset and the
latter raise IndexError in Python; both make the scanner fail so _format
returns the original string, exactly as the source does for every
raising render.
-/

/-- A Python value as it occurs in step fields: a string or an integer. -/
inductive PyVal where
  | str (s : String)
  | int (n : Int)
  deriving Repr, DecidableEq

/-- Python truth value of a step-field value (empty string and zero are
falsy). -/
def pyTruthy : PyVal → Bool
  | .str s => s ≠ ""
  | .int n => n ≠ 0

/-- Python int() applied to a step-field value; none models ValueError. -/
def pyIntOf : PyVal → Option Int
  | .int n => some n
  | .str s => pyToInt s

/-- Python str() of a step-field value, as inserted by a simple
replacement field. -/
def pyValStr : PyVal → String
  | .str s => s
  | .int n => toString n

/-- First-match association lookup, modelling a Python dict read. -/
def alistLookup : List (String × PyVal) → String → Option PyVal
  | [], _ => none
  | (k, v) :: rest, key => if k = key then some v else alistLookup rest key

/-- The name part of a replacement field: the characters before any
conversion, format spec, attribute access or index. -/
def rootKeyChars (fld : List Char) : List Char :=
  fld.takeWhile (fun c => c ≠ '!' && c ≠ ':' && c ≠ '.' && c ≠ '[')

/-- Resolution of one replacement field against the keyword parameters:
none models a raising lookup (positional field with no positional
arguments, missing keyword) and also any field syntax outside the
modelled simple-name subset. -/
def resolveField (fld : List Char) (params : List (String × PyVal)) : Option String :=
  let root := rootKeyChars fld
  if root.isEmpty || root.all Char.isDigit then none
  else
    match alistLookup params (String.mk root) with
    | none => none
    | some v => if root = fld then some (pyValStr v) else none

/-- Scanner state of the str.format renderer: inside literal text, right
after an opening brace, inside a replacement field (accumulated name,
reversed), or right after a closing brace. -/
inductive RenderMode where
  | lit
  | opened
  | field (acc : List Char)
  | closed

/-- One pass of the str.format scanner over the template characters:
some gives the rendered characters, none models a raising render
(unbalanced braces, a brace inside a field, or a failing field
resolution). -/
def renderStep (params : List (String × PyVal)) : RenderMode → List Char → Option (List Char)
  | .lit, [] => some []
  | .lit, c :: rest =>
    if c = '\x7b' then renderStep params .opened rest
    else if c = '\x7d' then renderStep params .closed rest
    else (renderStep params .lit rest).map (fun t => c :: t)
  | .opened, [] => none
  | .opened, c :: rest =>
    if c = '\x7b' then (renderStep params .lit rest).map (fun t => '\x7b' :: t)
    else if c = '\x7d' then none
    else renderStep params (.field [c]) rest
  | .field _, [] => none
  | .field acc, c :: rest =>
    if c = '\x7d' then
      match resolveField acc.reverse params with
      | none => none
      | some s => (renderStep params .lit rest).map (fun t => s.toList ++ t)
    else if c = '\x7b' then none
    else renderStep params (.field (c :: acc)) rest
  | .closed, [] => none
  | .closed, c :: rest =>
    if c = '\x7d' then (renderStep params .lit rest).map (fun t => '\x7d' :: t)
    else none

/-- value.format(params) on a template string: the rendered string, or
none when the render raises. -/
def pyFormatRender (t : String) (params : List (String × PyVal)) : Option String :=
  (renderStep params .lit t.toList).map String.mk

/-- The root keys of the replacement fields of a template, collected by
the same scanner; the keys the render has to look up. -/
def keysStep : RenderMode → List Char → List String
  | .lit, [] => []
  | .lit, c :: rest =>
    if c = '\x7b' then keysStep .opened rest
    else if c = '\x7d' then keysStep .closed rest
    else keysStep .lit rest
  | .opened, [] => []
  | .opened, c :: rest =>
    if c = '\x7b' then keysStep .lit rest
    else if c = '\x7d' then []
    else keysStep (.field [c]) rest
  | .field _, [] => []
  | .field acc, c :: rest =>
    if c = '\x7d' then String.mk (rootKeyChars acc.reverse) :: keysStep .lit rest
    else if c = '\x7b' then []
    else keysStep (.field (c :: acc)) rest
  | .closed, [] => []
  | .closed, c :: rest =>
    if c = '\x7d' then keysStep .lit rest
    else []

/-- The replacement-field root keys of a template string. -/
def fieldKeys (t : String) : List String :=
  keysStep .lit t.toList

/-- _format of tasks_runner.py: render a string value against the flat
parameter mapping, yielding the original string unchanged when the render
raises; non-string values pass through untouched. -/
def pyFormat (v : PyVal) (params : List (String × PyVal)) : PyVal :=
  match v with
  | .str s =>
    match pyFormatRender s params with
    | some r => .str r
    | none => .str s
  | other => other

/-! ## The step loop of run_task_by_id (tasks_runner.py) -/

/-- A task step as the step loop sees it: its type tag and, for the
retired app tag, its app_id field; every other field is read only by the
abstract per-step executor. -/
structure StepRec where
  type : String
  app_id : String
  deriving Repr, DecidableEq

/-- One entry of the result list of run_task_by_id. -/
structure StepResult where
  type : String
  app_id : Option String
  ok : Bool
  output : String
  deriving Repr, DecidableEq

/-- The fixed failure message of the retired app step tag. -/
def appRemovedMsg (app_id : String) : String :=
  "应用库功能已移除，无法执行应用 " ++ (if app_id = "" then "未指定" else app_id) ++
    "，请直接在任务步骤中编排 adb_* 或 autoglm_prompt"

/-- The step loop of run_task_by_id: steps execute strictly in list
order; a step of the retired app tag appends its fixed failure entry and
halts; otherwise the abstract executor (standing for run_step with the
task parameters and resolved device) yields the success flag and output,
the result is appended, and a false success flag halts the loop. -/
def run_task_steps (exec : StepRec → Bool × String) : List StepRec → List StepResult
  | [] => []
  | st :: rest =>
    if st.type = "app" then
      [{ type := "app", app_id := some st.app_id, ok := false,
         output := appRemovedMsg st.app_id }]
    else
      let r := exec st
      let entry : StepResult := { type := st.type, app_id := none, ok := r.1, output := r.2 }
      if r.1 then entry :: run_task_steps exec rest else [entry]

/-- run_task_by_id after task lookup and device resolution: a task with a
non-empty prompt runs as a single autoglm_prompt action whose outcome is
the given prompt result; a step-driven task runs the step loop. -/
def run_task_by_id (prompt : String) (steps : List StepRec)
    (promptResult : Bool × String) (exec : StepRec → Bool × String) : List StepResult :=
  if prompt ≠ "" then
    [{ type := "autoglm_prompt", app_id := none, ok := promptResult.1,
       output := promptResult.2 }]
  else
    run_task_steps exec steps

/-! ## The sleep step (tasks_runner.py run_step, adb.py pause_ms) -/

/-- pause_ms of adb.py: the pause duration in milliseconds, with negative
requests clamped to zero (the source divides by 1000 and sleeps that many
seconds). -/
def pause_ms (ms : Int) : Nat :=
  (max ms 0).toNat

/-- The sleep branch of run_step: the ms field (defaulting to 500 when
absent) is rendered through _format, a falsy render result falls back to
500, and the result is converted with int(); none models the ValueError
that int() raises on a non-numeric string, which propagates to the
caller of run_step.  On success the step always succeeds, reporting the
requested duration, and pauses for pause_ms of it. -/
def run_step_sleep (msField : Option PyVal) (params : List (String × PyVal)) :
    Option (Bool × String × Nat) :=
  let rendered := pyFormat (msField.getD (.int 500)) params
  let orDefault := if pyTruthy rendered then rendered else .int 500
  match pyIntOf orDefault with
  | none => none
  | some ms => some (true, "sleep " ++ toString ms ++ "ms", pause_ms ms)

/-! ## keyevent validation (adb.py) -/

/-- A non-empty all-digit token, the first alternative of the keyevent
validation pattern (Python regex d-plus; the Python regex also admits
non-ASCII decimal digits, which no caller produces). -/
def isDigitToken (cs : List Char) : Bool :=
  !cs.isEmpty && cs.all Char.isDigit

/-- A token matching KEYCODE_ followed by at least one character drawn
from capital letters, digits and underscore, the second alternative of
the keyevent validation pattern. -/
def isKeycodeToken : List Char → Bool
  | 'K' :: 'E' :: 'Y' :: 'C' :: 'O' :: 'D' :: 'E' :: '_' :: rest =>
    !rest.isEmpty && rest.all (fun c => ('A' ≤ c && c ≤ 'Z') || c.isDigit || c = '_')
  | _ => false

/-- The validation pattern of keyevent: a bare non-negative integer or a
KEYCODE_ name. -/
def keyeventPattern (key : String) : Bool :=
  isDigitToken key.toList || isKeycodeToken key.toList

/-- keyevent of adb.py: strips the key token and validates it before any
device interaction; error is the local failure (no device command is
built), ok carries the argv of the adb shell command that is executed on
the device. -/
def keyevent (key0 : String) : Except String (List String) :=
  let key := pyStrip key0
  if key = "" then .error "invalid keyevent"
  else if keyeventPattern key then .ok ["input", "keyevent", key]
  else .error "invalid keyevent"

/-- Whether an Except result is a success. -/
def exceptOk : Except String (List String) → Bool
  | .ok _ => true
  | .error _ => false

/-! ## Schedule run history (schedule.py, _record_result) -/

/-- One run record of a schedule history. -/
structure RunEntry where
  ts : Nat
  ok : Bool
  output : String
  deriving Repr, DecidableEq

/-- The last n elements of a list (all of it when it is shorter),
modelling the Python slice list[-n:]. -/
def lastN (n : Nat) (l : List α) : List α :=
  l.drop (l.length - n)

/-- The history update of _record_result: append the new entry, then trim
to the most recent 10 entries. -/
def record_result (history : List RunEntry) (e : RunEntry) : List RunEntry :=
  lastN 10 (history ++ [e])

/-! ## Interactive session registry (tasks_runner.py) -/

/-- The session cap of the registry. -/
def MAX_SESSIONS : Nat := 50

/-- The registry state: the sessions dict (id to accumulated display
lines) and the offsets dict (id to log offset), both modelled as
association lists in dict insertion order, oldest first, as Python dicts
preserve insertion order. -/
structure SessionsState where
  sessions : List (String × List String)
  offsets : List (String × Nat)
  deriving Repr, DecidableEq

/-- The empty registry, the documented initial state. -/
def emptySessions : SessionsState :=
  { sessions := [], offsets := [] }

/-- Python dict assignment: replace the value in place when the key is
present (keeping its insertion position), append otherwise. -/
def dictSet (d : List (String × α)) (k : String) (v : α) : List (String × α) :=
  if d.any (fun p => p.1 = k) then
    d.map (fun p => if p.1 = k then (k, v) else p)
  else
    d ++ [(k, v)]

/-- new_session of tasks_runner.py: when the registry already holds
MAX_SESSIONS sessions, the first key of the sessions dict (the session
created earliest among those still held) is deleted from both dicts; the
new session is then inserted with an empty line list and the current log
file size as its starting offset. -/
def new_session (sid : String) (logSize : Nat) (st : SessionsState) : SessionsState :=
  let evict := MAX_SESSIONS ≤ st.sessions.length
  let baseSessions := if evict then st.sessions.tail else st.sessions
  let baseOffsets :=
    if evict then
      match st.sessions.head? with
      | some (oldSid, _) => st.offsets.filter (fun p => p.1 ≠ oldSid)
      | none => st.offsets
    else st.offsets
  { sessions := dictSet baseSessions sid []
    offsets := dictSet baseOffsets sid logSize }

/-- The registry mutation of send_interactive: append a display line to
an existing session (send_interactive raises and leaves the registry
unchanged when the id is unknown); the dict value assignment never moves
the key, so sending never refreshes a session position in the eviction
order. -/
def session_append (sid : String) (line : String) (st : SessionsState) : SessionsState :=
  match st.sessions.lookup sid with
  | none => st
  | some lines => { st with sessions := dictSet st.sessions sid (lines ++ [line]) }

/-- A registry operation: a session creation (with the log size observed
at creation time) or a display-line append from send_interactive. -/
inductive SessionOp where
  | create (sid : String) (logSize : Nat)
  | append (sid : String) (line : String)

/-- Apply one registry operation. -/
def applySessionOp (st : SessionsState) : SessionOp → SessionsState
  | .create sid logSize => new_session sid logSize st
  | .append sid line => session_append sid line st

/-! ## tail_log (autoglm_process.py) -/

/-- tail_log of autoglm_process.py over a snapshot of the log file: the
file is none when it does not exist (the source answers offset 0 and an
empty text); otherwise at most max_bytes bytes are read starting at the
requested offset, which is clamped to max(0, size - max_bytes) when it is
negative or beyond the current size.  The returned text is modelled as
the byte window itself (the utf-8 decode of the source replaces invalid
sequences and never raises). -/
def tail_log (file : Option (List Nat)) (offset : Int) (max_bytes : Nat) :
    Nat × List Nat :=
  match file with
  | none => (0, [])
  | some content =>
    let size := content.length
    let off : Nat :=
      if offset < 0 ∨ (size : Int) < offset then size - max_bytes else offset.toNat
    let data := (content.drop off).take max_bytes
    (off + data.length, data)

/-! ## stop (autoglm_process.py)

The stop operation is modelled as a function of the supervisor state (pid
marker and in-memory handle) and an environment recording the outcomes of
the operating-system calls it makes: the liveness check of the initial
status reconciliation, whether sending SIGTERM raises, and the results of
the successive liveness polls after SIGTERM.  Wall-clock sleeping is
modelled by the poll count (the source sleeps 0.2 seconds between its at
most 30 polls).  The pid-file unlink of the source is inside a
try/except and is modelled as succeeding.
-/

/-- The externally visible actions stop can take, in order. -/
inductive StopAction where
  | sigterm
  | poll
  | sigkill
  | unlinkPid
  deriving Repr, DecidableEq

/-- Outcomes of the operating-system calls made by one stop invocation. -/
structure StopEnv where
  alive0 : Bool
  termOk : Bool
  termErr : String
  aliveSeq : Nat → Bool

/-- The supervisor state stop manipulates. -/
structure SupState where
  pidFile : Option Nat
  procHandle : Bool
  deriving Repr, DecidableEq

/-- The number of liveness calls the wait loop of stop makes, starting at
call index i with n loop iterations left: the loop breaks at the first
call reporting the process dead and otherwise runs all its iterations.
The value is also the call index of the escalation re-check that follows
the loop. -/
def loopCalls (f : Nat → Bool) : Nat → Nat → Nat
  | i, 0 => i
  | i, n + 1 => if f i then loopCalls f (i + 1) n else i + 1

/-- stop of autoglm_process.py: reconcile the pid marker through
status(), refuse when no pid is on record, send SIGTERM (an exception
returns a failure immediately, leaving the marker and the handle in
place), poll liveness up to 30 times at 0.2-second intervals, send
SIGKILL when the process still reports alive, then remove the pid marker
and clear the in-memory handle.  The result is the (ok, message) pair,
the new state, and the trace of actions taken. -/
def stop (env : StopEnv) (s : SupState) : (Bool × String) × SupState × List StopAction :=
  match s.pidFile with
  | none => ((false, "当前没有由 Web 管理端启动的进程"), s, [])
  | some _ =>
    if env.alive0 = false then
      ((false, "当前没有由 Web 管理端启动的进程"), { s with pidFile := none }, [])
    else if env.termOk = false then
      ((false, "停止失败: " ++ env.termErr), s, [.sigterm])
    else
      let j := loopCalls env.aliveSeq 0 30
      let aliveStill := env.aliveSeq j
      ((true, "已停止"),
       { pidFile := none, procHandle := false },
       [StopAction.sigterm] ++ List.replicate (j + 1) StopAction.poll ++
         (if aliveStill then [StopAction.sigkill] else []) ++ [StopAction.unlinkPid])

end AutoGLM

/-! # Helper lemmas -/

namespace AutoGLM

theorem lastN_length_le (n : Nat) (l : List α) : (lastN n l).length ≤ n := by
  simp only [lastN, List.length_drop]
  omega

theorem lastN_of_length_le (n : Nat) (l : List α) (h : l.length ≤ n) :
    lastN n l = l := by
  simp only [lastN]
  have : l.length - n = 0 := by omega
  simp [this]

theorem lastN_idem_append (n : Nat) (xs ys : List α) :
    lastN n (lastN n xs ++ ys) = lastN n (xs ++ ys) := by
  rcases le_or_lt xs.length n with h | h
  · rw [lastN_of_length_le n xs h]
  · have h1 : xs.length - (xs.length - n) = n := by omega
    have hk : xs.length - n ≤ xs.length := by omega
    have e1 : lastN n (lastN n xs ++ ys) =
        (List.drop (xs.length - n) xs ++ ys).drop ys.length := by
      simp only [lastN, List.length_append, List.length_drop, h1]
      congr 1
      omega
    rw [e1, ← List.drop_append_of_le_length hk, List.drop_drop]
    simp only [lastN, List.length_append]
    congr 1
    omega

theorem foldl_record_result (es : List RunEntry) :
    ∀ (h : List RunEntry), h.length ≤ 10 →
      es.foldl record_result h = lastN 10 (h ++ es) := by
  induction es with
  | nil =>
    intro h hh
    simpa using (lastN_of_length_le 10 h hh).symm
  | cons e es ih =>
    intro h hh
    rw [List.foldl_cons, ih (record_result h e) (lastN_length_le 10 _)]
    show lastN 10 (record_result h e ++ es) = lastN 10 (h ++ e :: es)
    rw [record_result, lastN_idem_append]
    simp

end AutoGLM

/-! # The claims -/

namespace AutoGLM

/-- C3: for every schedule history and every sequence of recorded runs,
each history-recording operation leaves at most 10 entries, evicting the
oldest first; starting from an empty history, any sequence of recorded
runs leaves exactly the most recent 10 run records in chronological
order, and in particular 15 sequential runs leave exactly the last 10. -/
theorem claim_C3_history_bound :
    (∀ (history : List RunEntry) (e : RunEntry),
        (record_result history e).length ≤ 10) ∧
    (∀ runs : List RunEntry, runs.foldl record_result [] = lastN 10 runs) ∧
    (∀ runs : List RunEntry, runs.length = 15 →
        runs.foldl record_result [] = runs.drop 5) := by
  refine ⟨fun history e => lastN_length_le 10 _, ?_, ?_⟩
  · intro runs
    simpa using foldl_record_result runs [] (by simp)
  · intro runs hlen
    have h := foldl_record_result runs [] (by simp)
    simpa [lastN, hlen] using h

/-- Witness for C3 at a concrete sequence of 15 recorded runs. -/
theorem claim_C3_history_bound_witness :
    ((List.range 15).map (fun i => RunEntry.mk i true "")).foldl record_result [] =
      ((List.range 15).map (fun i => RunEntry.mk i true "")).drop 5 :=
  claim_C3_history_bound.2.2 _ (by simp)

/-- C6: keyevent executes a device command exactly when the stripped key
token matches a bare non-negative integer or KEYCODE_ followed by
capitals, digits or underscores; every other token fails locally with no
device command built, and in particular a shell-injection token fails
while 66 and KEYCODE_HOME pass. -/
theorem claim_C6_keyevent_guard :
    (∀ key : String, exceptOk (keyevent key) = keyeventPattern (pyStrip key)) ∧
    keyevent "3;rm -rf /" = .error "invalid keyevent" ∧
    keyevent "66" = .ok ["input", "keyevent", "66"] ∧
    keyevent "KEYCODE_HOME" = .ok ["input", "keyevent", "KEYCODE_HOME"] := by
  refine ⟨?_, by rfl, by rfl, by rfl⟩
  intro key
  by_cases h : pyStrip key = ""
  · simp [keyevent, h, exceptOk, keyeventPattern, isDigitToken, isKeycodeToken]
  · by_cases hp : keyeventPattern (pyStrip key) <;>
      simp [keyevent, h, hp, exceptOk]

/-- C8 counterexample: on an existing empty log file, an offset beyond
the file size yields an empty window, not the non-empty window the claim
promises for every offset beyond the size. -/
theorem claim_C8_counterexample :
    ((some ([] : List Nat)).map List.length = some 0) ∧ (0 : Int) < 1 ∧
      (tail_log (some []) 1 32000).2 = [] := by decide

/-- C8 amended: tail_log reads at most max_bytes from the snapshot
starting at the offset; an offset that is negative or beyond the current
size is clamped to max(0, size - max_bytes) and the returned window then
ends exactly at end of file, and it is non-empty whenever the file is
non-empty and max_bytes is positive (an empty file or a zero max_bytes
yields an empty window). -/
theorem claim_C8_tail_log (content : List Nat) (offset : Int) (max_bytes : Nat) :
    ((tail_log (some content) offset max_bytes).2.length ≤ max_bytes) ∧
    (0 ≤ offset → offset ≤ (content.length : Int) →
      (tail_log (some content) offset max_bytes).2 =
        (content.drop offset.toNat).take max_bytes) ∧
    (offset < 0 ∨ (content.length : Int) < offset →
      (tail_log (some content) offset max_bytes).1 = content.length ∧
      (tail_log (some content) offset max_bytes).2 =
        (content.drop (content.length - max_bytes)).take max_bytes ∧
      (0 < max_bytes → content ≠ [] →
        (tail_log (some content) offset max_bytes).2 ≠ [])) := by
  constructor
  · simp [tail_log]
  constructor
  · intro h1 h2
    have hcond : ¬(offset < 0 ∨ (content.length : Int) < offset) := by omega
    simp [tail_log, hcond]
  · intro hcond
    have hc : (offset < 0 ∨ (content.length : Int) < offset) = True := by
      simp [hcond]
    constructor
    · simp only [tail_log, hc, if_true]
      simp [List.length_take, List.length_drop]
      omega
    constructor
    · simp [tail_log, hc]
    · intro hmb hne
      simp only [tail_log, hc, if_true]
      simp only [ne_eq, List.take_eq_nil_iff, List.drop_eq_nil_iff]
      push_neg
      constructor
      · omega
      · have : 0 < content.length := List.length_pos.mpr hne
        omega

/-- Witness for C8 at a stale offset beyond a three-byte file. -/
theorem claim_C8_tail_log_witness :
    ((3 : Int) < 5) ∧
    (tail_log (some [10, 20, 30]) 5 32000).1 = 3 ∧
    (tail_log (some [10, 20, 30]) 5 32000).2 ≠ [] :=
  ⟨by decide,
   ((claim_C8_tail_log [10, 20, 30] 5 32000).2.2 (by decide)).1,
   ((claim_C8_tail_log [10, 20, 30] 5 32000).2.2 (by decide)).2.2 (by decide) (by decide)⟩

/-- C9 counterexample: a sleep step whose ms field is the integer 0 does
not clamp the degenerate duration to zero; the falsy value falls back to
the 500 ms default and the step pauses 500 ms. -/
theorem claim_C9_counterexample :
    run_step_sleep (some (.int 0)) [] = some (true, "sleep 500ms", 500) ∧
      (500 : Nat) ≠ 0 := by decide

/-- C9 amended: whenever the rendered ms value parses as an integer, the
sleep step succeeds and pauses max(ms, 0) milliseconds, where a falsy
rendered value (an absent field, the integer 0, an empty string) falls
back to the 500 ms default; only negative durations clamp to zero, and a
non-numeric ms value raises instead of returning a result. -/
theorem claim_C9_sleep :
    (∀ (msField : Option PyVal) (params : List (String × PyVal))
        (r : Bool × String × Nat), run_step_sleep msField params = some r →
        r.1 = true ∧
        ∃ ms : Int,
          pyIntOf (if pyTruthy (pyFormat (msField.getD (.int 500)) params) then
              pyFormat (msField.getD (.int 500)) params else .int 500) = some ms ∧
          r.2.2 = pause_ms ms) ∧
    (∀ params : List (String × PyVal),
        run_step_sleep none params = some (true, "sleep 500ms", 500)) ∧
    run_step_sleep (some (.int (-5))) [] = some (true, "sleep -5ms", 0) ∧
    run_step_sleep (some (.str "abc")) [] = none := by
  refine ⟨?_, fun params => rfl, by decide, by decide⟩
  intro msField params r h
  simp only [run_step_sleep] at h
  rcases hint : pyIntOf (if pyTruthy (pyFormat (msField.getD (.int 500)) params) then
      pyFormat (msField.getD (.int 500)) params else .int 500) with _ | ms
  · rw [hint] at h
    simp at h
  · rw [hint] at h
    obtain rfl := (Option.some.inj h).symm
    exact ⟨rfl, ms, rfl, rfl⟩

/-- Witness for C9: the general conjunct applied to a negative concrete
duration, which clamps to a zero pause. -/
theorem claim_C9_sleep_witness :
    (true, "sleep -5ms", (0 : Nat)).1 = true ∧
    ∃ ms : Int,
      pyIntOf (if pyTruthy (pyFormat ((some (PyVal.int (-5))).getD (.int 500)) []) then
          pyFormat ((some (PyVal.int (-5))).getD (.int 500)) [] else .int 500) = some ms ∧
      (true, "sleep -5ms", (0 : Nat)).2.2 = pause_ms ms :=
  claim_C9_sleep.1 (some (.int (-5))) [] (true, "sleep -5ms", 0) (by decide)

end AutoGLM

/-! ## C7: the interactive session registry -/

namespace AutoGLM

theorem dictSet_length_le {α} (d : List (String × α)) (k : String) (v : α) :
    (dictSet d k v).length ≤ d.length + 1 := by
  unfold dictSet
  split <;> simp

theorem any_key_eq_false_of_fresh {α} (l : List (String × α)) (sid : String)
    (h : ∀ p ∈ l, p.1 ≠ sid) : (l.any (fun p => p.1 = sid)) = false := by
  simp only [List.any_eq_false, decide_eq_true_eq]
  exact h

theorem dictSet_length_of_present {α} (d : List (String × α)) (k : String) (v : α)
    (h : d.any (fun p => p.1 = k) = true) : (dictSet d k v).length = d.length := by
  simp [dictSet, h]

theorem lookup_any {α} (d : List (String × α)) (k : String) (v : α)
    (h : d.lookup k = some v) : d.any (fun p => p.1 = k) = true := by
  induction d with
  | nil => simp [List.lookup] at h
  | cons p rest ih =>
    obtain ⟨a, b⟩ := p
    by_cases hk : a = k
    · simp [hk]
    · have hka : (k == a) = false := beq_eq_false_iff_ne.mpr (fun e => hk e.symm)
      have h2 : rest.lookup k = some v := by
        simpa [List.lookup, hka] using h
      simp only [List.any_cons, Bool.or_eq_true]
      exact Or.inr (ih h2)

theorem dictSet_keys_of_present {α} (d : List (String × α)) (k : String) (v : α)
    (h : d.any (fun p => p.1 = k) = true) :
    (dictSet d k v).map Prod.fst = d.map Prod.fst := by
  simp only [dictSet, h, if_true]
  rw [List.map_map]
  apply List.map_congr_left
  intro p _
  by_cases hp : p.1 = k <;> simp [hp]

theorem lookup_append_fresh {α} (l : List (String × α)) (sid : String) (v : α)
    (h : ∀ p ∈ l, p.1 ≠ sid) : (l ++ [(sid, v)]).lookup sid = some v := by
  induction l with
  | nil => simp [List.lookup]
  | cons p rest ih =>
    obtain ⟨a, b⟩ := p
    have ha : a ≠ sid := h (a, b) (by simp)
    have hsa : (sid == a) = false := beq_eq_false_iff_ne.mpr (Ne.symm ha)
    have ih2 := ih (fun q hq => h q (List.mem_cons_of_mem _ hq))
    simpa [List.lookup, hsa] using ih2

theorem session_append_length (sid line : String) (st : SessionsState) :
    (session_append sid line st).sessions.length = st.sessions.length := by
  unfold session_append
  cases h : st.sessions.lookup sid with
  | none => rfl
  | some lines =>
    exact dictSet_length_of_present _ _ _ (lookup_any _ _ _ h)

theorem new_session_length_le (sid : String) (logSize : Nat) (st : SessionsState)
    (h : st.sessions.length ≤ 50) :
    (new_session sid logSize st).sessions.length ≤ 50 := by
  unfold new_session
  by_cases hc : MAX_SESSIONS ≤ st.sessions.length
  · have h50 : st.sessions.length = 50 := by
      simpa [MAX_SESSIONS] using le_antisymm h hc
    have htail : st.sessions.tail.length = 49 := by
      simp [List.length_tail, h50]
    calc (dictSet (if MAX_SESSIONS ≤ st.sessions.length then st.sessions.tail
            else st.sessions) sid []).length
        = (dictSet st.sessions.tail sid []).length := by rw [if_pos hc]
      _ ≤ st.sessions.tail.length + 1 := dictSet_length_le _ _ _
      _ ≤ 50 := by omega
  · calc (dictSet (if MAX_SESSIONS ≤ st.sessions.length then st.sessions.tail
            else st.sessions) sid []).length
        = (dictSet st.sessions sid []).length := by rw [if_neg hc]
      _ ≤ st.sessions.length + 1 := dictSet_length_le _ _ _
      _ ≤ 50 := by
          simp only [MAX_SESSIONS, not_le] at hc
          omega

theorem applySessionOp_length_le (st : SessionsState) (op : SessionOp)
    (h : st.sessions.length ≤ 50) :
    (applySessionOp st op).sessions.length ≤ 50 := by
  cases op with
  | create sid logSize => exact new_session_length_le sid logSize st h
  | append sid line =>
    rw [applySessionOp, session_append_length]
    exact h

/-- C7: starting from the empty registry, no sequence of session
creations and sends ever leaves more than 50 sessions; a creation at the
50-session cap evicts exactly the session at the head of the dict, the
one created earliest among those held (sends update values in place and
never move a session in the eviction order); and a new session starts at
the log size observed at its creation. -/
theorem claim_C7_sessions :
    (∀ ops : List SessionOp,
        (ops.foldl applySessionOp emptySessions).sessions.length ≤ 50) ∧
    (∀ (sid : String) (logSize : Nat) (st : SessionsState),
        st.sessions.length = 50 → (∀ p ∈ st.sessions, p.1 ≠ sid) →
        (new_session sid logSize st).sessions = st.sessions.tail ++ [(sid, [])]) ∧
    (∀ (sid : String) (logSize : Nat) (st : SessionsState),
        (∀ p ∈ st.offsets, p.1 ≠ sid) →
        (new_session sid logSize st).offsets.lookup sid = some logSize) ∧
    (∀ (sid line : String) (st : SessionsState),
        (session_append sid line st).sessions.map Prod.fst =
          st.sessions.map Prod.fst) := by
  refine ⟨?_, ?_, ?_, ?_⟩
  · intro ops
    have inv : ∀ (l : List SessionOp) (st : SessionsState), st.sessions.length ≤ 50 →
        (l.foldl applySessionOp st).sessions.length ≤ 50 := by
      intro l
      induction l with
      | nil => intro st h; simpa using h
      | cons op rest ih =>
        intro st h
        rw [List.foldl_cons]
        exact ih _ (applySessionOp_length_le st op h)
    exact inv ops emptySessions (by simp [emptySessions])
  · intro sid logSize st h50 hfresh
    have hc : MAX_SESSIONS ≤ st.sessions.length := by simp [MAX_SESSIONS, h50]
    show dictSet (if MAX_SESSIONS ≤ st.sessions.length then st.sessions.tail
        else st.sessions) sid [] = _
    rw [if_pos hc]
    have hfresh2 : ∀ p ∈ st.sessions.tail, p.1 ≠ sid :=
      fun p hp => hfresh p (List.mem_of_mem_tail hp)
    simp [dictSet, any_key_eq_false_of_fresh _ _ hfresh2]
  · intro sid logSize st hfresh
    show (dictSet (if MAX_SESSIONS ≤ st.sessions.length then
        (match st.sessions.head? with
         | some (oldSid, _) => st.offsets.filter (fun p => p.1 ≠ oldSid)
         | none => st.offsets)
        else st.offsets) sid logSize).lookup sid = some logSize
    have hfresh2 : ∀ p ∈ (if MAX_SESSIONS ≤ st.sessions.length then
        (match st.sessions.head? with
         | some (oldSid, _) => st.offsets.filter (fun p => p.1 ≠ oldSid)
         | none => st.offsets)
        else st.offsets), p.1 ≠ sid := by
      intro p hp
      apply hfresh
      rcases Decidable.em (MAX_SESSIONS ≤ st.sessions.length) with hc | hc
      · rw [if_pos hc] at hp
        cases hh : st.sessions.head? with
        | none => rwa [hh] at hp
        | some q =>
          obtain ⟨oldSid, lines⟩ := q
          rw [hh] at hp
          exact List.mem_of_mem_filter hp
      · rwa [if_neg hc] at hp
    rw [dictSet, if_neg]
    · exact lookup_append_fresh _ _ _ hfresh2
    · rw [any_key_eq_false_of_fresh _ _ hfresh2]
      simp
  · intro sid line st
    unfold session_append
    cases h : st.sessions.lookup sid with
    | none => rfl
    | some lines =>
      exact dictSet_keys_of_present _ _ _ (lookup_any _ _ _ h)

/-- Witness for C7: a creation at the cap on a concrete 50-session
registry evicts the head session. -/
theorem claim_C7_sessions_witness :
    (new_session "new" 7
        { sessions := List.replicate 50 ("old", []), offsets := [] }).sessions =
      (List.replicate 50 ("old", ([] : List String))).tail ++ [("new", [])] :=
  claim_C7_sessions.2.1 "new" 7
    { sessions := List.replicate 50 ("old", []), offsets := [] }
    (by simp) (by simp)

end AutoGLM

/-! ## C2: the fail-fast step loop -/

namespace AutoGLM

/-- C2: for a step-driven task (empty prompt), the steps execute
strictly in list order and the loop stops at the first step whose success
flag is false, returning the results of the successful prefix plus that
failing step; the result does not depend on the steps after the failure,
so no later step is ever invoked. -/
theorem claim_C2_fail_fast (exec : StepRec → Bool × String) (pr : Bool × String)
    (pre : List StepRec) (b : StepRec) (post : List StepRec)
    (hpre : ∀ st ∈ pre, st.type ≠ "app" ∧ (exec st).1 = true)
    (hb : b.type ≠ "app") (hfail : (exec b).1 = false) :
    run_task_by_id "" (pre ++ b :: post) pr exec =
      pre.map (fun st => StepResult.mk st.type none true (exec st).2) ++
        [StepResult.mk b.type none false (exec b).2] := by
  have key : ∀ l : List StepRec, (∀ st ∈ l, st.type ≠ "app" ∧ (exec st).1 = true) →
      run_task_steps exec (l ++ b :: post) =
        l.map (fun st => StepResult.mk st.type none true (exec st).2) ++
          [StepResult.mk b.type none false (exec b).2] := by
    intro l
    induction l with
    | nil =>
      intro _
      simp only [List.nil_append, List.map_nil]
      rw [run_task_steps, if_neg hb]
      simp [hfail]
    | cons a rest ih =>
      intro hl
      have ha := hl a (by simp)
      have hrest : ∀ st ∈ rest, st.type ≠ "app" ∧ (exec st).1 = true :=
        fun st hst => hl st (List.mem_cons_of_mem _ hst)
      simp only [List.cons_append]
      rw [run_task_steps, if_neg ha.1]
      simp only [ha.2, if_true, List.map_cons, List.cons_append]
      rw [ih hrest]
  have hrw : run_task_by_id "" (pre ++ b :: post) pr exec =
      run_task_steps exec (pre ++ b :: post) := by
    simp [run_task_by_id]
  rw [hrw]
  exact key pre hpre

/-- Witness for C2 at the concrete step list A(ok), B(fail), C(ok):
the run returns exactly the A and B results. -/
theorem claim_C2_fail_fast_witness :
    run_task_by_id ""
        [StepRec.mk "A" "", StepRec.mk "B" "", StepRec.mk "C" ""] (true, "")
        (fun st => (st.type ≠ "B", st.type ++ "-out")) =
      [{ type := "A", app_id := none, ok := true, output := "A-out" },
       { type := "B", app_id := none, ok := false, output := "B-out" }] := by
  have h := claim_C2_fail_fast (fun st => (st.type ≠ "B", st.type ++ "-out"))
    (true, "") [StepRec.mk "A" ""] (StepRec.mk "B" "") [StepRec.mk "C" ""]
    (by decide) (by decide) (by decide)
  simpa using h

end AutoGLM

/-! ## C4: the stop operation of the supervisor -/

namespace AutoGLM

theorem loopCalls_le (f : Nat → Bool) : ∀ (n i : Nat), loopCalls f i n ≤ i + n := by
  intro n
  induction n with
  | zero => intro i; simp [loopCalls]
  | succ n ih =>
    intro i
    rw [loopCalls]
    split
    · exact le_trans (ih (i + 1)) (by omega)
    · omega

/-- C4 counterexample: when sending the graceful termination signal
raises, stop returns the failure immediately and neither removes the pid
marker nor clears the in-memory handle, contradicting the cleanup that
the claim promises regardless of signaling outcome. -/
theorem claim_C4_counterexample :
    (stop { alive0 := true, termOk := false, termErr := "EPERM",
            aliveSeq := fun _ => true }
         { pidFile := some 42, procHandle := true }).1.1 = false ∧
    (stop { alive0 := true, termOk := false, termErr := "EPERM",
            aliveSeq := fun _ => true }
         { pidFile := some 42, procHandle := true }).2.1.pidFile = some 42 ∧
    (stop { alive0 := true, termOk := false, termErr := "EPERM",
            aliveSeq := fun _ => true }
         { pidFile := some 42, procHandle := true }).2.1.procHandle = true := by
  refine ⟨rfl, rfl, rfl⟩

/-- C4 amended: with a supervised live pid on record and the graceful
termination signal delivered without an exception, stop reports success,
always removes the pid marker and clears the in-memory handle (whatever
the liveness polls report), polls liveness at most 30 times in its wait
loop (0.2 seconds apart, about 6 seconds in total), and escalates to a
forceful kill exactly when the process still reports alive after the
loop; when sending the signal raises, stop instead returns a failure
leaving the pid marker and the handle in place. -/
theorem claim_C4_stop_cleanup (env : StopEnv) (s : SupState) (pid : Nat)
    (hpid : s.pidFile = some pid) (halive : env.alive0 = true)
    (hterm : env.termOk = true) :
    (stop env s).1.1 = true ∧
    (stop env s).2.1 = { pidFile := none, procHandle := false } ∧
    StopAction.sigterm ∈ (stop env s).2.2 ∧
    StopAction.unlinkPid ∈ (stop env s).2.2 ∧
    loopCalls env.aliveSeq 0 30 ≤ 30 ∧
    (env.aliveSeq (loopCalls env.aliveSeq 0 30) = true →
      StopAction.sigkill ∈ (stop env s).2.2) ∧
    (env.aliveSeq (loopCalls env.aliveSeq 0 30) = false →
      StopAction.sigkill ∉ (stop env s).2.2) := by
  have hstop : stop env s =
      ((true, "已停止"),
       { pidFile := none, procHandle := false },
       [StopAction.sigterm] ++
         List.replicate (loopCalls env.aliveSeq 0 30 + 1) StopAction.poll ++
         (if env.aliveSeq (loopCalls env.aliveSeq 0 30) then [StopAction.sigkill]
          else []) ++ [StopAction.unlinkPid]) := by
    rw [stop, hpid]
    simp [halive, hterm]
  rw [hstop]
  refine ⟨rfl, rfl, by simp, by simp, loopCalls_le env.aliveSeq 30 0, ?_, ?_⟩
  · intro h
    simp [h]
  · intro h
    simp [h, List.mem_replicate]

/-- Witness for C4 on a process that never answers the liveness polls:
stop cleans the state and escalates to the forceful kill. -/
theorem claim_C4_stop_cleanup_witness :
    (stop { alive0 := true, termOk := true, termErr := "",
            aliveSeq := fun _ => true }
         { pidFile := some 7, procHandle := true }).2.1 =
      { pidFile := none, procHandle := false } ∧
    StopAction.sigkill ∈
      (stop { alive0 := true, termOk := true, termErr := "",
              aliveSeq := fun _ => true }
           { pidFile := some 7, procHandle := true }).2.2 := by
  have h := claim_C4_stop_cleanup
    { alive0 := true, termOk := true, termErr := "", aliveSeq := fun _ => true }
    { pidFile := some 7, procHandle := true } 7 rfl rfl rfl
  exact ⟨h.2.1, h.2.2.2.2.2.1 rfl⟩

end AutoGLM

/-! ## C5: parameter templating -/

namespace AutoGLM

theorem resolveField_lookup (fld : List Char) (params : List (String × PyVal))
    (s : String) (h : resolveField fld params = some s) :
    alistLookup params (String.mk (rootKeyChars fld)) ≠ none := by
  simp only [resolveField] at h
  cases h1 : ((rootKeyChars fld).isEmpty || (rootKeyChars fld).all Char.isDigit) with
  | true => simp [h1] at h
  | false =>
    simp only [h1, Bool.false_eq_true, if_false] at h
    cases hlook : alistLookup params (String.mk (rootKeyChars fld)) with
    | none => rw [hlook] at h; simp at h
    | some v => simp [hlook]

theorem renderStep_keys (params : List (String × PyVal)) :
    ∀ (cs : List Char) (mode : RenderMode) (out : List Char),
      renderStep params mode cs = some out →
      ∀ k ∈ keysStep mode cs, alistLookup params k ≠ none := by
  intro cs
  induction cs with
  | nil =>
    intro mode out h k hk
    cases mode <;> simp [keysStep] at hk
  | cons c rest ih =>
    intro mode out h k hk
    cases mode with
    | lit =>
      rw [renderStep] at h
      rw [keysStep] at hk
      by_cases h1 : c = '\x7b'
      · rw [if_pos h1] at h hk
        exact ih .opened out h k hk
      · rw [if_neg h1] at h hk
        by_cases h2 : c = '\x7d'
        · rw [if_pos h2] at h hk
          exact ih .closed out h k hk
        · rw [if_neg h2] at h hk
          obtain ⟨t2, ht2, -⟩ := Option.map_eq_some'.mp h
          exact ih .lit t2 ht2 k hk
    | opened =>
      rw [renderStep] at h
      rw [keysStep] at hk
      by_cases h1 : c = '\x7b'
      · rw [if_pos h1] at h hk
        obtain ⟨t2, ht2, -⟩ := Option.map_eq_some'.mp h
        exact ih .lit t2 ht2 k hk
      · rw [if_neg h1] at h hk
        by_cases h2 : c = '\x7d'
        · rw [if_pos h2] at h
          simp at h
        · rw [if_neg h2] at h hk
          exact ih (.field [c]) out h k hk
    | field acc =>
      rw [renderStep] at h
      rw [keysStep] at hk
      by_cases h1 : c = '\x7d'
      · rw [if_pos h1] at h hk
        cases hres : resolveField acc.reverse params with
        | none => rw [hres] at h; simp at h
        | some s =>
          rw [hres] at h
          obtain ⟨t2, ht2, -⟩ := Option.map_eq_some'.mp h
          rcases List.mem_cons.mp hk with rfl | hk2
          · exact resolveField_lookup acc.reverse params s hres
          · exact ih .lit t2 ht2 k hk2
      · rw [if_neg h1] at h hk
        by_cases h2 : c = '\x7b'
        · rw [if_pos h2] at h
          simp at h
        · rw [if_neg h2] at h hk
          exact ih (.field (c :: acc)) out h k hk
    | closed =>
      rw [renderStep] at h
      rw [keysStep] at hk
      by_cases h1 : c = '\x7d'
      · rw [if_pos h1] at h hk
        obtain ⟨t2, ht2, -⟩ := Option.map_eq_some'.mp h
        exact ih .lit t2 ht2 k hk
      · rw [if_neg h1] at h
        simp at h

/-- C5: rendering a string step field never raises to the caller (the
embedding is a total function that falls back to the original string);
whenever a replacement field of the template refers to a parameter that
is absent from the mapping, the original literal string is returned
unmodified; a well-formed template with its parameter present is
substituted; a malformed template (unterminated field) is returned
unmodified; and non-string values pass through untouched. -/
theorem claim_C5_templating :
    (∀ (t : String) (params : List (String × PyVal)) (k : String),
        k ∈ fieldKeys t → alistLookup params k = none →
        pyFormat (.str t) params = .str t) ∧
    pyFormat (.str "hello \x7bname\x7d") [("name", .str "world")] = .str "hello world" ∧
    pyFormat (.str "hello \x7bname\x7d") [] = .str "hello \x7bname\x7d" ∧
    pyFormat (.str "hello \x7bname") [("name", .str "world")] = .str "hello \x7bname" ∧
    (∀ (n : Int) (params : List (String × PyVal)), pyFormat (.int n) params = .int n) := by
  refine ⟨?_, by rfl, by rfl, by rfl, fun n params => rfl⟩
  intro t params k hk hnone
  have hshow : pyFormat (.str t) params =
      (match pyFormatRender t params with
       | some r => PyVal.str r
       | none => PyVal.str t) := rfl
  rw [hshow]
  cases hr : pyFormatRender t params with
  | none => rfl
  | some r =>
    exfalso
    unfold pyFormatRender at hr
    obtain ⟨out, hout, -⟩ := Option.map_eq_some'.mp hr
    unfold fieldKeys at hk
    exact renderStep_keys params t.toList .lit out hout k hk hnone

/-- Witness for C5: a template referencing an absent parameter renders
to the original literal. -/
theorem claim_C5_templating_witness :
    pyFormat (.str "hi \x7bname\x7d") [("other", .str "x")] = .str "hi \x7bname\x7d" :=
  claim_C5_templating.1 "hi \x7bname\x7d" [("other", .str "x")] "name"
    (by decide) (by rfl)

end AutoGLM

/-! ## C10 and C1: the cron matcher and the forward search -/

namespace AutoGLM

theorem contains_isEmpty_false {l : List Nat} {x : Nat} (h : l.contains x = true) :
    l.isEmpty = false := by
  cases l with
  | nil => simp [List.contains] at h
  | cons a as => rfl

theorem dow_contains_isEmpty_false {pf : List Nat} {x : Nat}
    (h : (if pf.contains 7 then 0 :: pf else pf).contains x = true) :
    pf.isEmpty = false := by
  cases pf with
  | nil => simp [List.contains] at h
  | cons a as => rfl

/-- C10: a cron expression rejected by validation (wrong field count or
some field expanding to an empty set) matches no instant at all, so an
invalid expression can never fire a schedule; the matcher is a total
function, so it also never raises. -/
theorem claim_C10_invalid_never_fires (expr : String) (ts : Nat)
    (h : is_valid_cron expr = false) : cronMatches expr ts = false := by
  cases hm : cronMatches expr ts with
  | false => rfl
  | true =>
    exfalso
    rw [cronMatches] at hm
    rw [is_valid_cron] at h
    cases hp : sixParts expr with
    | none => rw [hp] at hm; simp at hm
    | some fields =>
      obtain ⟨a, b, c, d, e, f⟩ := fields
      rw [hp] at hm h
      simp only [Bool.and_eq_true] at hm
      obtain ⟨⟨⟨⟨⟨h1, h2⟩, h3⟩, h4⟩, h5⟩, h6⟩ := hm
      simp [contains_isEmpty_false h1, contains_isEmpty_false h2,
        contains_isEmpty_false h3, contains_isEmpty_false h4,
        contains_isEmpty_false h5, dow_contains_isEmpty_false h6] at h

/-- Witness for C10 at a concrete invalid expression. -/
theorem claim_C10_invalid_never_fires_witness :
    is_valid_cron "not a cron" = false ∧ cronMatches "not a cron" 0 = false :=
  ⟨by decide, claim_C10_invalid_never_fires "not a cron" 0 (by decide)⟩

theorem scanFirst_some_spec
    (f : List Nat × List Nat × List Nat × List Nat × List Nat × List Nat) :
    ∀ (fuel start u : Nat), scanFirst f start fuel = some u →
      start ≤ u ∧ u < start + fuel ∧ matchesSets f u = true ∧
        ∀ v, start ≤ v → v < u → matchesSets f v = false := by
  intro fuel
  induction fuel with
  | zero => intro start u h; simp [scanFirst] at h
  | succ n ih =>
    intro start u h
    rw [scanFirst] at h
    by_cases hm : matchesSets f start = true
    · rw [if_pos hm] at h
      obtain rfl := Option.some.inj h
      exact ⟨le_rfl, by omega, hm, fun v hv1 hv2 => absurd hv1 (by omega)⟩
    · rw [if_neg hm] at h
      obtain ⟨h1, h2, h3, h4⟩ := ih (start + 1) u h
      refine ⟨by omega, by omega, h3, fun v hv1 hv2 => ?_⟩
      rcases Nat.eq_or_lt_of_le hv1 with heq | hlt
      · rw [← heq]
        cases hmm : matchesSets f start with
        | false => rfl
        | true => exact absurd hmm hm
      · exact h4 v (by omega) hv2

theorem scanFirst_none_spec
    (f : List Nat × List Nat × List Nat × List Nat × List Nat × List Nat) :
    ∀ (fuel start : Nat), scanFirst f start fuel = none →
      ∀ v, start ≤ v → v < start + fuel → matchesSets f v = false := by
  intro fuel
  induction fuel with
  | zero => intro start _ v hv1 hv2; exact absurd hv2 (by omega)
  | succ n ih =>
    intro start h v hv1 hv2
    rw [scanFirst] at h
    by_cases hm : matchesSets f start = true
    · rw [if_pos hm] at h; simp at h
    · rw [if_neg hm] at h
      rcases Nat.eq_or_lt_of_le hv1 with heq | hlt
      · rw [← heq]
        cases hmm : matchesSets f start with
        | false => rfl
        | true => exact absurd hmm hm
      · exact ih (start + 1) h v (by omega) (by omega)

theorem cron_sets_of_valid (expr : String) (h : is_valid_cron expr = true) :
    ∃ f1 f2 f3 f4 f5 f6, cron_sets expr = some (f1, f2, f3, f4, f5, f6) := by
  rw [is_valid_cron] at h
  cases hp : sixParts expr with
  | none => rw [hp] at h; simp at h
  | some fields =>
    obtain ⟨a, b, c, d, e, f⟩ := fields
    rw [hp] at h
    simp only [Bool.and_eq_true, Bool.not_eq_true'] at h
    obtain ⟨⟨⟨⟨⟨h1, h2⟩, h3⟩, h4⟩, h5⟩, h6⟩ := h
    refine ⟨parse_field (pyStrip a) 0 59, parse_field (pyStrip b) 0 59,
      parse_field (pyStrip c) 0 23, parse_field (pyStrip d) 1 31,
      parse_field (pyStrip e) 1 12, parse_field (pyStrip f) 0 7, ?_⟩
    simp only [cron_sets, hp]
    rw [if_neg (by simp [h1, h2, h3, h4, h5, h6])]

theorem matchesSets_eq_cronMatches (expr : String)
    (f1 f2 f3 f4 f5 f6 : List Nat)
    (h : cron_sets expr = some (f1, f2, f3, f4, f5, f6)) (ts : Nat) :
    matchesSets (f1, f2, f3, f4, f5, if f6.contains 7 then 0 :: f6 else f6) ts =
      cronMatches expr ts := by
  rw [cron_sets] at h
  rw [cronMatches]
  revert h
  cases hp : sixParts expr with
  | none => intro h; simp at h
  | some fields =>
    obtain ⟨a, b, c, d, e, f⟩ := fields
    intro h
    by_cases hcond : ((parse_field (pyStrip a) 0 59).isEmpty ∨
        (parse_field (pyStrip b) 0 59).isEmpty ∨
        (parse_field (pyStrip c) 0 23).isEmpty ∨
        (parse_field (pyStrip d) 1 31).isEmpty ∨
        (parse_field (pyStrip e) 1 12).isEmpty ∨
        (parse_field (pyStrip f) 0 7).isEmpty)
    · simp only [hcond, if_true] at h
      simp at h
    · simp only [hcond, if_false] at h
      simp only [Option.some.injEq, Prod.mk.injEq] at h
      obtain ⟨e1, e2, e3, e4, e5, e6⟩ := h
      subst e1
      subst e2
      subst e3
      subst e4
      subst e5
      subst e6
      rfl

/-- C1: for every cron expression accepted as valid and every reference
instant, a non-zero result of the forward search is strictly after the
reference, matches the expression, and no instant strictly between the
reference and the result matches; a zero result means that no instant in
the bounded 31-day scan horizon after the reference matches (no match
found instead of looping). -/
theorem claim_C1_next_run (expr : String) (t : Nat)
    (hv : is_valid_cron expr = true) :
    (next_run_ts expr t ≠ 0 →
        t < next_run_ts expr t ∧
        cronMatches expr (next_run_ts expr t) = true ∧
        ∀ v, t < v → v < next_run_ts expr t → cronMatches expr v = false) ∧
    (next_run_ts expr t = 0 →
        ∀ v, t < v → v ≤ t + 31 * 24 * 3600 → cronMatches expr v = false) := by
  obtain ⟨f1, f2, f3, f4, f5, f6, hsets⟩ := cron_sets_of_valid expr hv
  have heq := matchesSets_eq_cronMatches expr f1 f2 f3 f4 f5 f6 hsets
  cases hscan : scanFirst
      (f1, f2, f3, f4, f5, if f6.contains 7 then 0 :: f6 else f6)
      (t + 1) (31 * 24 * 3600) with
  | some u =>
    have hnr : next_run_ts expr t = u := by
      simp only [next_run_ts, next_run_ts_scan, hsets, hscan]
    obtain ⟨h1, h2, h3, h4⟩ := scanFirst_some_spec _ _ _ _ hscan
    rw [hnr]
    constructor
    · intro _
      refine ⟨by omega, ?_, ?_⟩
      · rw [← heq u]
        exact h3
      · intro v hv1 hv2
        rw [← heq v]
        exact h4 v (by omega) hv2
    · intro h0
      exact absurd h0 (by omega)
  | none =>
    have hnr : next_run_ts expr t = 0 := by
      simp only [next_run_ts, next_run_ts_scan, hsets, hscan]
    rw [hnr]
    constructor
    · intro h0
      exact absurd rfl h0
    · intro _ v hv1 hv2
      rw [← heq v]
      exact scanFirst_none_spec _ _ _ hscan v (by omega) (by omega)

/-- Witness for C1 at the every-second expression and the epoch
reference instant. -/
theorem claim_C1_next_run_witness :
    is_valid_cron "* * * * * *" = true ∧
    next_run_ts "* * * * * *" 0 ≠ 0 ∧
    cronMatches "* * * * * *" (next_run_ts "* * * * * *" 0) = true :=
  ⟨by decide, by decide,
   ((claim_C1_next_run "* * * * * *" 0 (by decide)).1 (by decide)).2.1⟩

end AutoGLM
